import Mathlib

/-!
Verification of the refresh-rate selection engine declared in
services/surfaceflinger/Scheduler/RefreshRateConfigs.h.

The header carries the data model (RefreshRate, Policy, LayerRequirement,
LayerVoteType), the numeric constants (FPS_EPSILON, MARGIN_FOR_PERIOD_CALCULATION,
CURRENT_POLICY_UNCHANGED) and the inline bodies of RefreshRate::inPolicy and of
the equality operators.  The bodies of the member functions
(setDisplayManagerPolicy, setOverridePolicy, constructAvailableRefreshRates,
getRefreshRateForContentV2, getDisplayFrames, getBestRefreshRate,
getCurrentRefreshRateByPolicy, setCurrentConfigId) live in a translation unit
that is not part of the visible sources; those are modelled from the
specification, as marked by their doc comments.

Machine floats (the fps and weight fields, scores) are modelled as exact
rationals; nsecs_t as Int; HwcConfigIndexType as Nat; HwcConfigGroupType as Int.
-/

namespace RefreshRateConfigsProof

/-- FPS_EPSILON from the header: the tolerance within which two fps values are
considered approximately equal (0.001 fps). -/
def FPS_EPSILON : ℚ := 1 / 1000

/-- MARGIN_FOR_PERIOD_CALCULATION from the header: 800us expressed in
nanoseconds, the margin used when matching refresh rates to content rates. -/
def MARGIN_FOR_PERIOD_CALCULATION : Int := 800000

/-- Return code of the set*Policy operations signalling that the policy was
valid but identical to the stored one (value from the header). -/
def CURRENT_POLICY_UNCHANGED : Int := 1

/-- Modelled from the spec: android status_t success value returned when a
set*Policy call updates the policy. -/
def NO_ERROR : Int := 0

/-- Modelled from the spec: the negative status_t value returned for an invalid
policy ("a negative value if the policy is invalid"). -/
def BAD_VALUE : Int := -22

/-- One hardware-supported display timing, as in RefreshRateConfigs::RefreshRate. -/
structure RefreshRate where
  configId : Nat
  vsyncPeriod : Int
  configGroup : Int
  name : String
  fps : ℚ
deriving DecidableEq, Repr

/-- RefreshRate::inPolicy from the header: the fps of this timing lies within
the [min, max] refresh-rate range with FPS_EPSILON applied to the boundaries. -/
def RefreshRate.inPolicy (r : RefreshRate) (minRefreshRate maxRefreshRate : ℚ) : Bool :=
  decide (r.fps ≥ minRefreshRate - FPS_EPSILON) && decide (r.fps ≤ maxRefreshRate + FPS_EPSILON)

/-- The identity comparison of RefreshRate::operator==, defined over
(configId, vsyncPeriod, configGroup); name and fps do not participate. -/
def RefreshRate.eqOp (a b : RefreshRate) : Bool :=
  a.configId == b.configId && a.vsyncPeriod == b.vsyncPeriod && a.configGroup == b.configGroup

/-- RefreshRateConfigs::Policy from the header. -/
structure Policy where
  defaultConfig : Nat
  minRefreshRate : ℚ
  maxRefreshRate : ℚ
  allowGroupSwitching : Bool
deriving DecidableEq, Repr

/-- The per-layer vote options of RefreshRateConfigs::LayerVoteType. -/
inductive LayerVoteType where
  | NoVote
  | Min
  | Max
  | Heuristic
  | ExplicitDefault
  | ExplicitExactOrMultiple
deriving DecidableEq, Repr

/-- RefreshRateConfigs::LayerRequirement from the header. -/
structure LayerRequirement where
  name : String
  vote : LayerVoteType
  desiredRefreshRate : ℚ
  weight : ℚ
deriving DecidableEq, Repr

/-- The mutable state of a RefreshRateConfigs object: the immutable catalog
(mRefreshRates), the derived available list, the current timing and the two
policies.  Field names follow the header. -/
structure RefreshRateConfigs where
  mRefreshRates : List RefreshRate
  mAvailableRefreshRates : List RefreshRate
  mCurrentRefreshRate : RefreshRate
  mDisplayManagerPolicy : Policy
  mOverridePolicy : Option Policy
deriving DecidableEq, Repr

/-- getRefreshRateFromConfigId from the header: catalog lookup by configId.
The C++ uses map::at, for which a missing id is a fatal contract violation;
the fatal case is modelled as none. -/
def getRefreshRateFromConfigId (c : RefreshRateConfigs) (configId : Nat) : Option RefreshRate :=
  c.mRefreshRates.find? (fun r => r.configId == configId)

/-- getCurrentPolicy: the override policy if active, else the display manager
policy (behaviour stated by the header comment and the spec). -/
def getCurrentPolicy (c : RefreshRateConfigs) : Policy :=
  c.mOverridePolicy.getD c.mDisplayManagerPolicy

/-- getDisplayManagerPolicy: the display manager policy, regardless of whether
an override policy is active. -/
def getDisplayManagerPolicy (c : RefreshRateConfigs) : Policy :=
  c.mDisplayManagerPolicy

/-- Modelled from the spec: policy validation used by the set*Policy
operations (body not in the visible sources).  Validates minFps <= maxFps and
that defaultConfigId exists in the Timing Catalog. -/
def isPolicyValid (c : RefreshRateConfigs) (policy : Policy) : Bool :=
  decide (policy.minRefreshRate ≤ policy.maxRefreshRate) &&
    (getRefreshRateFromConfigId c policy.defaultConfig).isSome

/-- Insertion step of the sorting of the available list: keeps timings with the
larger vsyncPeriod (lower refresh rate) in front, stable for equal periods. -/
def insertByVsyncPeriod (r : RefreshRate) : List RefreshRate → List RefreshRate
  | [] => [r]
  | x :: xs =>
    if r.vsyncPeriod ≤ x.vsyncPeriod then x :: insertByVsyncPeriod r xs
    else r :: x :: xs

/-- Modelled from the spec: getSortedRefreshRateList (body not in the visible
sources) filters the catalog by a predicate and sorts the result by
vsyncPeriod so that, per the header comment on mAvailableRefreshRates, the
first element is the lowest refresh rate (largest vsyncPeriod first). -/
def getSortedRefreshRateList (shouldAddRefreshRate : RefreshRate → Bool)
    (catalog : List RefreshRate) : List RefreshRate :=
  (catalog.filter shouldAddRefreshRate).foldr insertByVsyncPeriod []

/-- Modelled from the spec: constructAvailableRefreshRates (body not in the
visible sources).  Keeps the timings whose fps lies in the policy range (per
RefreshRate::inPolicy) and whose configGroup equals the configGroup of the
policy's default timing unless allowGroupSwitching is set, ordered with the
lowest refresh rate first. -/
def constructAvailableRefreshRates (catalog : List RefreshRate) (policy : Policy) :
    List RefreshRate :=
  let defaultGroup : Option Int :=
    (catalog.find? (fun r => r.configId == policy.defaultConfig)).map (fun r => r.configGroup)
  getSortedRefreshRateList
    (fun r =>
      (policy.allowGroupSwitching || defaultGroup == some r.configGroup) &&
        r.inPolicy policy.minRefreshRate policy.maxRefreshRate)
    catalog

/-- Recompute the available list of a state from its catalog and its current
(effective) policy. -/
def recomputeAvailable (c : RefreshRateConfigs) : RefreshRateConfigs :=
  { c with mAvailableRefreshRates :=
      constructAvailableRefreshRates c.mRefreshRates (getCurrentPolicy c) }

/-- Modelled from the spec: setDisplayManagerPolicy (body not in the visible
sources).  Rejects an invalid policy with a negative status and no mutation;
returns CURRENT_POLICY_UNCHANGED without recomputation when the valid policy
equals the stored one; otherwise stores it, recomputes the available timings
and returns NO_ERROR. -/
def setDisplayManagerPolicy (c : RefreshRateConfigs) (policy : Policy) :
    Int × RefreshRateConfigs :=
  if isPolicyValid c policy then
    if c.mDisplayManagerPolicy = policy then (CURRENT_POLICY_UNCHANGED, c)
    else (NO_ERROR, recomputeAvailable { c with mDisplayManagerPolicy := policy })
  else (BAD_VALUE, c)

/-- Modelled from the spec: setOverridePolicy (body not in the visible
sources).  Same validation and return values as setDisplayManagerPolicy;
passing none clears the override and triggers recomputation. -/
def setOverridePolicy (c : RefreshRateConfigs) (policy : Option Policy) :
    Int × RefreshRateConfigs :=
  match policy with
  | some p =>
    if isPolicyValid c p then
      if c.mOverridePolicy = some p then (CURRENT_POLICY_UNCHANGED, c)
      else (NO_ERROR, recomputeAvailable { c with mOverridePolicy := some p })
    else (BAD_VALUE, c)
  | none =>
    if c.mOverridePolicy = none then (CURRENT_POLICY_UNCHANGED, c)
    else (NO_ERROR, recomputeAvailable { c with mOverridePolicy := none })

/-- isConfigAllowed from the header: true iff the config is in the list of
refresh rates available under the current policy. -/
def isConfigAllowed (c : RefreshRateConfigs) (config : Nat) : Bool :=
  c.mAvailableRefreshRates.any (fun r => r.configId == config)

/-- Modelled from the spec: setCurrentConfigId (body not in the visible
sources) records the timing the device operates at; an id absent from the
catalog is a fatal contract violation, modelled as none. -/
def setCurrentConfigId (c : RefreshRateConfigs) (configId : Nat) :
    Option RefreshRateConfigs :=
  match getRefreshRateFromConfigId c configId with
  | none => none
  | some r => some { c with mCurrentRefreshRate := r }

/-- Modelled from the spec: getCurrentRefreshRateByPolicy (body not in the
visible sources) returns the current timing if it is allowed by the current
policy, and the timing referenced by the effective policy's default config
otherwise. -/
def getCurrentRefreshRateByPolicy (c : RefreshRateConfigs) : Option RefreshRate :=
  if isConfigAllowed c c.mCurrentRefreshRate.configId then some c.mCurrentRefreshRate
  else getRefreshRateFromConfigId c (getCurrentPolicy c).defaultConfig

/-- Round a rational to the nearest integer, halves up, matching the rounding
of a positive period ratio in the scorer. -/
def roundToNearest (q : ℚ) : Int :=
  Int.floor (q + 1 / 2)

/-- The layer's desired period in nanoseconds, computed from its desired
refresh rate as round(1e9 / desiredRefreshRate). -/
def layerPeriodOf (l : LayerRequirement) : Int :=
  roundToNearest ((1000000000 : ℚ) / l.desiredRefreshRate)

/-- Modelled from the spec: getDisplayFrames (body not in the visible sources)
returns the number of display frames and the remainder when dividing the layer
refresh period by the display refresh period: frames = round(L / P) and
remainder = L - frames * P. -/
def getDisplayFrames (layerPeriod displayPeriod : Int) : Int × Int :=
  let frames : Int := roundToNearest ((layerPeriod : ℚ) / (displayPeriod : ℚ))
  (frames, layerPeriod - frames * displayPeriod)

/-- True for the vote types that do not contribute a numeric score: NoVote
abstains and Min forces the lowest available timing when no scoring vote is
present. -/
def voteIsNoVoteOrMin : LayerVoteType → Bool
  | LayerVoteType.NoVote => true
  | LayerVoteType.Min => true
  | _ => false

/-- The largest fps among the candidate timings (0 for no candidates). -/
def maxAvailableFps (candidates : List RefreshRate) : ℚ :=
  candidates.foldl (fun m r => max m r.fps) 0

/-- Modelled from the spec: the per-layer per-candidate score of the content
scorer (body not in the visible sources).  Max biases toward the highest
available fps.  Heuristic and ExplicitDefault degrade with the relative
remainder of dividing the desired period by the candidate period but are never
excluded.  ExplicitExactOrMultiple is eligible (score 1) only when the
remainder is zero within MARGIN_FOR_PERIOD_CALCULATION, and excluded (score 0)
otherwise.  The exact numeric shape of the graceful degradation is an
implementation choice left open by the spec; the chosen one is monotone in the
relative remainder. -/
def layerScore (maxFps : ℚ) (l : LayerRequirement) (r : RefreshRate) : ℚ :=
  match l.vote with
  | LayerVoteType.NoVote => 0
  | LayerVoteType.Min => 0
  | LayerVoteType.Max => r.fps / maxFps
  | LayerVoteType.Heuristic =>
    let rem := (getDisplayFrames (layerPeriodOf l) r.vsyncPeriod).2
    max 0 (1 - (rem.natAbs : ℚ) / (r.vsyncPeriod : ℚ))
  | LayerVoteType.ExplicitDefault =>
    let rem := (getDisplayFrames (layerPeriodOf l) r.vsyncPeriod).2
    max 0 (1 - (rem.natAbs : ℚ) / (r.vsyncPeriod : ℚ))
  | LayerVoteType.ExplicitExactOrMultiple =>
    let rem := (getDisplayFrames (layerPeriodOf l) r.vsyncPeriod).2
    if (rem.natAbs : Int) ≤ MARGIN_FOR_PERIOD_CALCULATION then 1 else 0

/-- Modelled from the spec: the combined score of a candidate timing is the
sum over the layers of the layer's weight times its per-candidate score. -/
def totalScore (layers : List LayerRequirement) (maxFps : ℚ) (r : RefreshRate) : ℚ :=
  match layers with
  | [] => 0
  | l :: rest => l.weight * layerScore maxFps l r + totalScore rest maxFps r

/-- Scan step of getBestRefreshRate: keep the current best scored pair, and
replace it only when a strictly higher score appears, so that on exact ties
the pair encountered first is kept. -/
def bestAux (best : RefreshRate × ℚ) : List (RefreshRate × ℚ) → RefreshRate × ℚ
  | [] => best
  | x :: xs => bestAux (if best.2 < x.2 then x else best) xs

/-- Modelled from the spec: getBestRefreshRate (body not in the visible
sources) returns the refresh rate with the highest score in the collection;
per the header comment, when more than one share the same highest score the
first one is returned. -/
def getBestRefreshRate (scored : List (RefreshRate × ℚ)) : Option RefreshRate :=
  match scored with
  | [] => none
  | x :: xs => some (bestAux x xs).1

/-- The candidate list of a scoring call: the available timings, or the single
timing referenced by the effective policy's default config when the available
list is empty (spec step 1). -/
def availableOrDefault (c : RefreshRateConfigs) : List RefreshRate :=
  if c.mAvailableRefreshRates.isEmpty then
    match getRefreshRateFromConfigId c (getCurrentPolicy c).defaultConfig with
    | none => []
    | some dflt => [dflt]
  else c.mAvailableRefreshRates

/-- The scored candidate list of a scoring call. -/
def scoredList (layers : List LayerRequirement) (candidates : List RefreshRate) :
    List (RefreshRate × ℚ) :=
  candidates.map (fun r => (r, totalScore layers (maxAvailableFps candidates) r))

/-- The content-driven choice, before the touch bias: the lowest candidate
when every layer abstains or votes Min, and the best-scored candidate
otherwise. -/
def contentChoice (c : RefreshRateConfigs) (layers : List LayerRequirement) :
    Option RefreshRate :=
  match layers.all (fun l => voteIsNoVoteOrMin l.vote) with
  | true => (availableOrDefault c).head?
  | false => getBestRefreshRate (scoredList layers (availableOrDefault c))

/-- Modelled from the spec: getRefreshRateForContentV2 (body not in the
visible sources).  An empty layers sequence yields the effective policy's
default timing.  Otherwise the candidates are scored and the best one is
chosen; when touchActive is set the score is biased fully toward the highest
candidate, and the returned flag records whether that bias changed the
outcome versus scoring without it.  A failed catalog lookup is the fatal
UnknownConfig contract violation, modelled as none. -/
def getRefreshRateForContentV2 (c : RefreshRateConfigs) (layers : List LayerRequirement)
    (touchActive : Bool) : Option (RefreshRate × Bool) :=
  match layers.isEmpty with
  | true =>
    match getRefreshRateFromConfigId c (getCurrentPolicy c).defaultConfig with
    | none => none
    | some dflt => some (dflt, false)
  | false =>
    match contentChoice c layers with
    | none => none
    | some chosen =>
      match touchActive with
      | true =>
        match (availableOrDefault c).getLast? with
        | none => none
        | some touched => some (touched, !(RefreshRate.eqOp touched chosen))
      | false => some (chosen, false)

/-- The scoring call as observed through the shared state: the C++ method is
const and takes the lock only to read, so the state component of the outcome
is the state it was called on. -/
def getRefreshRateForContentV2Run (c : RefreshRateConfigs) (layers : List LayerRequirement)
    (touchActive : Bool) : Option (RefreshRate × Bool) × RefreshRateConfigs :=
  (getRefreshRateForContentV2 c layers touchActive, c)

/-! Concrete fixtures: the 60/90/120 fps catalog used by the spec's examples,
with the usual nanosecond periods. -/

/-- The 60 fps timing (config 0, group 0, period 16666667 ns). -/
def rr60 : RefreshRate := ⟨0, 16666667, 0, "60fps", 60⟩

/-- The 90 fps timing (config 1, group 0, period 11111111 ns). -/
def rr90 : RefreshRate := ⟨1, 11111111, 0, "90fps", 90⟩

/-- The 120 fps timing (config 2, group 0, period 8333333 ns). -/
def rr120 : RefreshRate := ⟨2, 8333333, 0, "120fps", 120⟩

/-- The three-timing catalog of the spec's examples. -/
def catalog3 : List RefreshRate := [rr60, rr90, rr120]

/-- A policy allowing the whole catalog3 range, defaulting to config 0. -/
def pol3 : Policy := ⟨0, 0, 120, false⟩

/-- A RefreshRateConfigs state over catalog3 with pol3 as display manager
policy, no override, every timing available (lowest refresh rate first) and 60
fps as the current timing. -/
def st3 : RefreshRateConfigs := ⟨catalog3, [rr60, rr90, rr120], rr60, pol3, none⟩

/-- The spec example layer: ExplicitExactOrMultiple vote for 30 fps, weight 1. -/
def l30 : LayerRequirement := ⟨"layer30", LayerVoteType.ExplicitExactOrMultiple, 30, 1⟩

/-- The fixture state is consistent: its available list equals the one the
availability filter computes for its policy. -/
theorem st3_available_consistent :
    st3.mAvailableRefreshRates = constructAvailableRefreshRates catalog3 pol3 := by
  with_unfolding_all rfl

/-! Helper lemmas about the sorting of the available list. -/

/-- Membership is preserved by the insertion step. -/
theorem mem_insertByVsyncPeriod (a r : RefreshRate) (l : List RefreshRate) :
    a ∈ insertByVsyncPeriod r l ↔ a = r ∨ a ∈ l := by
  induction l with
  | nil => simp [insertByVsyncPeriod]
  | cons x xs ih =>
    by_cases h : r.vsyncPeriod ≤ x.vsyncPeriod
    · simp only [insertByVsyncPeriod, if_pos h, List.mem_cons, ih]
      tauto
    · simp only [insertByVsyncPeriod, if_neg h, List.mem_cons]

/-- The ordering invariant of the available list: each timing's vsyncPeriod is
at least that of every later timing, so the first element is the lowest
refresh rate. -/
def PeriodDescending (l : List RefreshRate) : Prop :=
  List.Pairwise (fun a b => b.vsyncPeriod ≤ a.vsyncPeriod) l

/-- The insertion step preserves the ordering invariant. -/
theorem periodDescending_insertByVsyncPeriod (r : RefreshRate) (l : List RefreshRate)
    (h : PeriodDescending l) : PeriodDescending (insertByVsyncPeriod r l) := by
  induction l with
  | nil => simp [insertByVsyncPeriod, PeriodDescending]
  | cons x xs ih =>
    rcases List.pairwise_cons.mp h with ⟨hx, hxs⟩
    by_cases hle : r.vsyncPeriod ≤ x.vsyncPeriod
    · simp only [insertByVsyncPeriod, if_pos hle]
      refine List.pairwise_cons.mpr ⟨?_, ih hxs⟩
      intro y hy
      rcases (mem_insertByVsyncPeriod y r xs).mp hy with h1 | h2
      · exact h1 ▸ hle
      · exact hx y h2
    · simp only [insertByVsyncPeriod, if_neg hle]
      refine List.pairwise_cons.mpr ⟨?_, h⟩
      intro y hy
      rcases List.mem_cons.mp hy with h1 | h2
      · exact h1 ▸ le_of_not_le hle
      · exact le_trans (hx y h2) (le_of_not_le hle)

/-- The sorted-and-filtered list contains exactly the catalog entries
satisfying the predicate. -/
theorem mem_getSortedRefreshRateList (p : RefreshRate → Bool) (catalog : List RefreshRate)
    (a : RefreshRate) :
    a ∈ getSortedRefreshRateList p catalog ↔ a ∈ catalog ∧ p a = true := by
  have hmem : ∀ l : List RefreshRate, ∀ b : RefreshRate,
      b ∈ l.foldr insertByVsyncPeriod [] ↔ b ∈ l := by
    intro l
    induction l with
    | nil => intro b; simp
    | cons x xs ih =>
      intro b
      simp only [List.foldr_cons, mem_insertByVsyncPeriod, ih, List.mem_cons]
  unfold getSortedRefreshRateList
  rw [hmem, List.mem_filter]

/-- The sorted list satisfies the ordering invariant. -/
theorem periodDescending_getSortedRefreshRateList (p : RefreshRate → Bool)
    (catalog : List RefreshRate) : PeriodDescending (getSortedRefreshRateList p catalog) := by
  unfold getSortedRefreshRateList
  generalize catalog.filter p = l
  induction l with
  | nil => exact List.Pairwise.nil
  | cons x xs ih => exact periodDescending_insertByVsyncPeriod x _ ih

/-- The available list computed from any catalog and policy satisfies the
ordering invariant. -/
theorem periodDescending_constructAvailableRefreshRates (catalog : List RefreshRate)
    (policy : Policy) : PeriodDescending (constructAvailableRefreshRates catalog policy) :=
  periodDescending_getSortedRefreshRateList _ catalog

/-! Helper lemmas about the best-score scan. -/

/-- The scan over the remaining pairs either keeps the incoming best pair,
with every remaining score at most its score, or returns the first later pair
that strictly exceeds it and every score before or at most it. -/
theorem bestAux_spec (xs : List (RefreshRate × ℚ)) (best : RefreshRate × ℚ) :
    (bestAux best xs = best ∧ ∀ y ∈ xs, y.2 ≤ best.2) ∨
    (∃ i, ∃ hi : i < xs.length,
      bestAux best xs = xs.get ⟨i, hi⟩ ∧
      best.2 < (xs.get ⟨i, hi⟩).2 ∧
      (∀ j, ∀ hj : j < xs.length, j < i → (xs.get ⟨j, hj⟩).2 < (xs.get ⟨i, hi⟩).2) ∧
      (∀ j, ∀ hj : j < xs.length, (xs.get ⟨j, hj⟩).2 ≤ (xs.get ⟨i, hi⟩).2)) := by
  induction xs generalizing best with
  | nil => exact Or.inl ⟨rfl, by simp⟩
  | cons x xs ih =>
    by_cases hx : best.2 < x.2
    · have hstep : bestAux best (x :: xs) = bestAux x xs := by
        simp [bestAux, if_pos hx]
      rcases ih x with ⟨heq, hall⟩ | ⟨i, hi, heq, hlt, hbefore, hall⟩
      · refine Or.inr ⟨0, by simp, ?_, ?_, ?_, ?_⟩
        · rw [hstep, heq]; rfl
        · simpa using hx
        · intro j hj hj0; omega
        · intro j hj
          match j, hj with
          | 0, _ => exact le_refl _
          | j + 1, hj =>
            simpa using hall _ (xs.get_mem j (by simpa using hj))
      · refine Or.inr ⟨i + 1, by simpa using hi, ?_, ?_, ?_, ?_⟩
        · rw [hstep, heq]; rfl
        · exact lt_trans hx hlt
        · intro j hj hji
          match j, hj with
          | 0, _ => exact hlt
          | j + 1, hj => exact hbefore j (by simpa using hj) (by omega)
        · intro j hj
          match j, hj with
          | 0, _ => exact le_of_lt hlt
          | j + 1, hj => exact hall j (by simpa using hj)
    · have hstep : bestAux best (x :: xs) = bestAux best xs := by
        simp [bestAux, if_neg hx]
      rcases ih best with ⟨heq, hall⟩ | ⟨i, hi, heq, hlt, hbefore, hall⟩
      · refine Or.inl ⟨by rw [hstep, heq], ?_⟩
        intro y hy
        rcases List.mem_cons.mp hy with h1 | h2
        · exact h1 ▸ le_of_not_lt hx
        · exact hall y h2
      · refine Or.inr ⟨i + 1, by simpa using hi, ?_, ?_, ?_, ?_⟩
        · rw [hstep, heq]; rfl
        · exact hlt
        · intro j hj hji
          match j, hj with
          | 0, _ => exact lt_of_le_of_lt (le_of_not_lt hx) hlt
          | j + 1, hj => exact hbefore j (by simpa using hj) (by omega)
        · intro j hj
          match j, hj with
          | 0, _ => exact le_trans (le_of_not_lt hx) (le_of_lt hlt)
          | j + 1, hj => exact hall j (by simpa using hj)

/-- getBestRefreshRate returns the first pair attaining the maximal score:
its score bounds every score, and every pair strictly before it scores
strictly less. -/
theorem getBestRefreshRate_spec (scored : List (RefreshRate × ℚ)) (h : scored ≠ []) :
    ∃ i, ∃ hi : i < scored.length,
      getBestRefreshRate scored = some (scored.get ⟨i, hi⟩).1 ∧
      (∀ j, ∀ hj : j < scored.length, (scored.get ⟨j, hj⟩).2 ≤ (scored.get ⟨i, hi⟩).2) ∧
      (∀ j, ∀ hj : j < scored.length, j < i → (scored.get ⟨j, hj⟩).2 < (scored.get ⟨i, hi⟩).2) := by
  match scored, h with
  | x :: xs, _ =>
    rcases bestAux_spec xs x with ⟨heq, hall⟩ | ⟨i, hi, heq, hlt, hbefore, hall⟩
    · refine ⟨0, by simp, ?_, ?_, ?_⟩
      · simp [getBestRefreshRate, heq]
      · intro j hj
        match j, hj with
        | 0, _ => exact le_refl _
        | j + 1, hj => simpa using hall _ (xs.get_mem j (by simpa using hj))
      · intro j hj hj0; omega
    · refine ⟨i + 1, by simpa using hi, ?_, ?_, ?_⟩
      · simp only [getBestRefreshRate, heq]; rfl
      · intro j hj
        match j, hj with
        | 0, _ => exact le_of_lt hlt
        | j + 1, hj => exact hall j (by simpa using hj)
      · intro j hj hji
        match j, hj with
        | 0, _ => exact hlt
        | j + 1, hj => exact hbefore j (by simpa using hj) (by omega)

/-! Further small helpers. -/

/-- Every candidate's fps is bounded by maxAvailableFps. -/
theorem fps_le_maxAvailableFps (l : List RefreshRate) (r : RefreshRate) (hr : r ∈ l) :
    r.fps ≤ maxAvailableFps l := by
  have haux : ∀ (xs : List RefreshRate) (a : ℚ),
      (∀ s ∈ xs, s.fps ≤ xs.foldl (fun m t => max m t.fps) a) ∧
        a ≤ xs.foldl (fun m t => max m t.fps) a := by
    intro xs
    induction xs with
    | nil => intro a; exact ⟨by simp, le_refl a⟩
    | cons x xs ih =>
      intro a
      constructor
      · intro s hs
        rcases List.mem_cons.mp hs with h1 | h2
        · rw [h1]
          exact le_trans (le_max_right a x.fps) (ih (max a x.fps)).2
        · exact (ih (max a x.fps)).1 s h2
      · exact le_trans (le_max_left a x.fps) (ih (max a x.fps)).2
  exact (haux l 0).1 r hr

/-- When the available list is nonempty it is the candidate list. -/
theorem availableOrDefault_of_ne_nil (c : RefreshRateConfigs)
    (h : c.mAvailableRefreshRates ≠ []) :
    availableOrDefault c = c.mAvailableRefreshRates := by
  unfold availableOrDefault
  rw [if_neg]
  simpa [List.isEmpty_iff] using h

/-- In a pairwise-ordered list the head is a lower bound. -/
theorem head_le_of_pairwise (x : RefreshRate) (xs : List RefreshRate)
    (h : List.Pairwise (fun a b => a.fps ≤ b.fps) (x :: xs)) :
    ∀ s ∈ x :: xs, x.fps ≤ s.fps := by
  intro s hs
  rcases List.mem_cons.mp hs with h1 | h2
  · exact h1 ▸ le_refl _
  · exact (List.pairwise_cons.mp h).1 s h2

/-- Unfolding equation of setOverridePolicy on a present policy. -/
theorem setOverridePolicy_some (c : RefreshRateConfigs) (p : Policy) :
    setOverridePolicy c (some p) =
      if isPolicyValid c p = true then
        if c.mOverridePolicy = some p then (CURRENT_POLICY_UNCHANGED, c)
        else (NO_ERROR, recomputeAvailable { c with mOverridePolicy := some p })
      else (BAD_VALUE, c) := rfl

/-- Unfolding equation of setOverridePolicy on the absent policy. -/
theorem setOverridePolicy_none (c : RefreshRateConfigs) :
    setOverridePolicy c none =
      if c.mOverridePolicy = none then (CURRENT_POLICY_UNCHANGED, c)
      else (NO_ERROR, recomputeAvailable { c with mOverridePolicy := none }) := rfl

/-! The claims. -/

/-- C1.  setDisplayManagerPolicy rejects a policy whose min exceeds its max or
whose default config is not in the catalog with a negative status and no
mutation; a valid policy equal to the stored one yields
CURRENT_POLICY_UNCHANGED with no recomputation; a valid different policy is
stored, the available timings are recomputed from the new effective policy,
and NO_ERROR is returned.  The override policy is never touched. -/
theorem setDisplayManagerPolicy_spec (c : RefreshRateConfigs) (p : Policy) :
    ((p.maxRefreshRate < p.minRefreshRate ∨
        getRefreshRateFromConfigId c p.defaultConfig = none) →
      (setDisplayManagerPolicy c p).1 < 0 ∧ (setDisplayManagerPolicy c p).2 = c) ∧
    (isPolicyValid c p = true → c.mDisplayManagerPolicy = p →
      setDisplayManagerPolicy c p = (CURRENT_POLICY_UNCHANGED, c)) ∧
    (isPolicyValid c p = true → c.mDisplayManagerPolicy ≠ p →
      (setDisplayManagerPolicy c p).1 = NO_ERROR ∧
      (setDisplayManagerPolicy c p).2.mDisplayManagerPolicy = p ∧
      (setDisplayManagerPolicy c p).2.mOverridePolicy = c.mOverridePolicy ∧
      (setDisplayManagerPolicy c p).2.mAvailableRefreshRates =
        constructAvailableRefreshRates c.mRefreshRates
          (getCurrentPolicy (setDisplayManagerPolicy c p).2)) := by
  refine ⟨?_, ?_, ?_⟩
  · intro hbad
    have hinvalid : isPolicyValid c p = false := by
      unfold isPolicyValid
      rcases hbad with h1 | h2
      · simp [not_le.mpr h1]
      · simp [h2]
    unfold setDisplayManagerPolicy
    rw [if_neg (by simp [hinvalid])]
    exact ⟨by norm_num [BAD_VALUE], rfl⟩
  · intro hvalid heq
    unfold setDisplayManagerPolicy
    rw [if_pos hvalid, if_pos heq]
  · intro hvalid hne
    unfold setDisplayManagerPolicy
    rw [if_pos hvalid, if_neg (fun h => hne h)]
    refine ⟨rfl, rfl, rfl, ?_⟩
    simp [recomputeAvailable, getCurrentPolicy]

/-- Witness for C1: a concrete rejected policy (min 90 over max 60) leaves a
concrete state untouched and returns a negative status. -/
theorem setDisplayManagerPolicy_spec_witness :
    (setDisplayManagerPolicy st3 ⟨0, 90, 60, false⟩).1 < 0 ∧
      (setDisplayManagerPolicy st3 ⟨0, 90, 60, false⟩).2 = st3 :=
  (setDisplayManagerPolicy_spec st3 ⟨0, 90, 60, false⟩).1
    (Or.inl (by norm_num))

/-- C6.  getCurrentPolicy returns the override policy whenever one is set and
the display manager policy otherwise; after setOverridePolicy with the absent
value the current policy is again the display manager policy; and
getDisplayManagerPolicy returns the display manager policy regardless of any
override. -/
theorem override_precedence (c : RefreshRateConfigs) (p : Policy) :
    (c.mOverridePolicy = some p → getCurrentPolicy c = p) ∧
    (c.mOverridePolicy = none → getCurrentPolicy c = c.mDisplayManagerPolicy) ∧
    ((setOverridePolicy c none).2.mOverridePolicy = none ∧
      (setOverridePolicy c none).2.mDisplayManagerPolicy = c.mDisplayManagerPolicy ∧
      getCurrentPolicy (setOverridePolicy c none).2 =
        getDisplayManagerPolicy (setOverridePolicy c none).2) ∧
    getDisplayManagerPolicy c = c.mDisplayManagerPolicy := by
  refine ⟨?_, ?_, ?_, rfl⟩
  · intro h; simp [getCurrentPolicy, h]
  · intro h; simp [getCurrentPolicy, h]
  · unfold setOverridePolicy
    by_cases h : c.mOverridePolicy = none
    · rw [if_pos h]
      exact ⟨h, rfl, by simp [getCurrentPolicy, getDisplayManagerPolicy, h]⟩
    · rw [if_neg h]
      exact ⟨rfl, rfl, by simp [getCurrentPolicy, getDisplayManagerPolicy, recomputeAvailable]⟩

/-- Witness for C6: with a concrete override set, the current policy is the
override; after clearing it, the current policy is the administrator policy. -/
theorem override_precedence_witness :
    getCurrentPolicy { st3 with mOverridePolicy := some ⟨1, 0, 120, false⟩ } =
        (⟨1, 0, 120, false⟩ : Policy) ∧
      getCurrentPolicy
          (setOverridePolicy { st3 with mOverridePolicy := some ⟨1, 0, 120, false⟩ } none).2 =
        getDisplayManagerPolicy
          (setOverridePolicy { st3 with mOverridePolicy := some ⟨1, 0, 120, false⟩ } none).2 :=
  ⟨(override_precedence { st3 with mOverridePolicy := some ⟨1, 0, 120, false⟩ }
      ⟨1, 0, 120, false⟩).1 rfl,
    ((override_precedence { st3 with mOverridePolicy := some ⟨1, 0, 120, false⟩ }
      ⟨1, 0, 120, false⟩).2.2.1).2.2⟩

/-- C10.  The three outcomes of the policy setters are distinguished by the
sign of the status: invalid is negative, a changing update is NO_ERROR = 0,
and an unchanged valid policy is the positive CURRENT_POLICY_UNCHANGED = 1. -/
theorem policy_status_codes (c : RefreshRateConfigs) (p : Policy) :
    (isPolicyValid c p = false →
      (setDisplayManagerPolicy c p).1 < 0 ∧ (setOverridePolicy c (some p)).1 < 0) ∧
    (isPolicyValid c p = true → c.mDisplayManagerPolicy ≠ p →
      (setDisplayManagerPolicy c p).1 = 0) ∧
    (isPolicyValid c p = true → c.mDisplayManagerPolicy = p →
      (setDisplayManagerPolicy c p).1 = CURRENT_POLICY_UNCHANGED) ∧
    (isPolicyValid c p = true → c.mOverridePolicy ≠ some p →
      (setOverridePolicy c (some p)).1 = 0) ∧
    (isPolicyValid c p = true → c.mOverridePolicy = some p →
      (setOverridePolicy c (some p)).1 = CURRENT_POLICY_UNCHANGED) ∧
    CURRENT_POLICY_UNCHANGED = 1 ∧ NO_ERROR = 0 ∧ (0 : Int) < CURRENT_POLICY_UNCHANGED := by
  refine ⟨?_, ?_, ?_, ?_, ?_, rfl, rfl, by norm_num [CURRENT_POLICY_UNCHANGED]⟩
  · intro hinvalid
    constructor
    · unfold setDisplayManagerPolicy
      rw [if_neg (by rw [hinvalid]; exact Bool.false_ne_true)]
      norm_num [BAD_VALUE]
    · rw [setOverridePolicy_some, if_neg (by rw [hinvalid]; exact Bool.false_ne_true)]
      norm_num [BAD_VALUE]
  · intro hvalid hne
    unfold setDisplayManagerPolicy
    rw [if_pos hvalid, if_neg (fun h => hne h)]
    rfl
  · intro hvalid heq
    unfold setDisplayManagerPolicy
    rw [if_pos hvalid, if_pos heq]
  · intro hvalid hne
    rw [setOverridePolicy_some, if_pos hvalid, if_neg (fun h => hne h)]
    rfl
  · intro hvalid heq
    rw [setOverridePolicy_some, if_pos hvalid, if_pos heq]

/-- C2.  A catalog timing is in the available list computed for a policy iff
its fps lies in the closed interval widened by FPS_EPSILON = 0.001 and either
the policy allows group switching or its configGroup equals the configGroup
of the timing referenced by the policy's default config. -/
theorem availableRefreshRates_mem_iff (catalog : List RefreshRate) (p : Policy)
    (t d : RefreshRate) (ht : t ∈ catalog)
    (hd : catalog.find? (fun r => r.configId == p.defaultConfig) = some d) :
    t ∈ constructAvailableRefreshRates catalog p ↔
      (p.minRefreshRate - FPS_EPSILON ≤ t.fps ∧ t.fps ≤ p.maxRefreshRate + FPS_EPSILON) ∧
        (p.allowGroupSwitching = true ∨ t.configGroup = d.configGroup) := by
  unfold constructAvailableRefreshRates
  rw [mem_getSortedRefreshRateList, hd]
  simp only [Option.map_some', Bool.and_eq_true, Bool.or_eq_true, beq_iff_eq,
    Option.some.injEq, RefreshRate.inPolicy, decide_eq_true_eq, ge_iff_le]
  constructor
  · rintro ⟨-, hgroup, hrange⟩
    refine ⟨hrange, ?_⟩
    rcases hgroup with h1 | h2
    · exact Or.inl h1
    · exact Or.inr h2.symm
  · rintro ⟨hrange, hgroup⟩
    refine ⟨ht, ?_, hrange⟩
    rcases hgroup with h1 | h2
    · exact Or.inl h1
    · exact Or.inr h2.symm

/-- Witness for C2: the 120 fps timing of catalog3 is available under pol3,
whose default timing is rr60, and the membership criterion holds. -/
theorem availableRefreshRates_mem_iff_witness :
    rr120 ∈ constructAvailableRefreshRates catalog3 pol3 ↔
      (pol3.minRefreshRate - FPS_EPSILON ≤ rr120.fps ∧
          rr120.fps ≤ pol3.maxRefreshRate + FPS_EPSILON) ∧
        (pol3.allowGroupSwitching = true ∨ rr120.configGroup = rr60.configGroup) :=
  availableRefreshRates_mem_iff catalog3 pol3 rr120 rr60
    (List.Mem.tail _ (List.Mem.tail _ (List.Mem.head _))) rfl

/-- C7.  With an empty layers sequence, getRefreshRateForContentV2 returns the
timing referenced by the effective policy's default config (and no touch
consideration), for every state and touch flag. -/
theorem empty_layers_default (c : RefreshRateConfigs) (touchActive : Bool) (d : RefreshRate)
    (hd : getRefreshRateFromConfigId c (getCurrentPolicy c).defaultConfig = some d) :
    getRefreshRateForContentV2 c [] touchActive = some (d, false) := by
  unfold getRefreshRateForContentV2
  rw [show ([] : List LayerRequirement).isEmpty = true from rfl, hd]

/-- Witness for C7: on st3 (default config 0) the empty-layers call returns
the 60 fps timing even with the touch flag set. -/
theorem empty_layers_default_witness :
    getRefreshRateFromConfigId st3 (getCurrentPolicy st3).defaultConfig = some rr60 ∧
      getRefreshRateForContentV2 st3 [] true = some (rr60, false) :=
  ⟨rfl, empty_layers_default st3 true rr60 rfl⟩

/-- C8.  getCurrentRefreshRateByPolicy returns the current timing whenever its
config is in the available list, and the timing referenced by the effective
policy's default config otherwise; setCurrentConfigId stores the catalog
timing carrying the given id as the current timing. -/
theorem getCurrentRefreshRateByPolicy_spec (c : RefreshRateConfigs) :
    (isConfigAllowed c c.mCurrentRefreshRate.configId = true →
      getCurrentRefreshRateByPolicy c = some c.mCurrentRefreshRate) ∧
    (isConfigAllowed c c.mCurrentRefreshRate.configId = false →
      getCurrentRefreshRateByPolicy c =
        getRefreshRateFromConfigId c (getCurrentPolicy c).defaultConfig) ∧
    (∀ configId c2, setCurrentConfigId c configId = some c2 →
      getRefreshRateFromConfigId c configId = some c2.mCurrentRefreshRate ∧
        c2.mRefreshRates = c.mRefreshRates ∧
        c2.mAvailableRefreshRates = c.mAvailableRefreshRates ∧
        c2.mDisplayManagerPolicy = c.mDisplayManagerPolicy ∧
        c2.mOverridePolicy = c.mOverridePolicy) := by
  refine ⟨?_, ?_, ?_⟩
  · intro h
    unfold getCurrentRefreshRateByPolicy
    rw [if_pos h]
  · intro h
    unfold getCurrentRefreshRateByPolicy
    rw [if_neg (by rw [h]; exact Bool.false_ne_true)]
  · intro configId c2 h
    unfold setCurrentConfigId at h
    cases hfind : getRefreshRateFromConfigId c configId with
    | none => rw [hfind] at h; exact absurd h (by simp)
    | some r =>
      rw [hfind] at h
      cases Option.some.injEq .. ▸ h with
      | refl => exact ⟨hfind ▸ rfl, rfl, rfl, rfl, rfl⟩

/-- Witness for C8: st3 runs at rr60, which is available, so the
policy-constrained current timing is rr60 itself. -/
theorem getCurrentRefreshRateByPolicy_spec_witness :
    isConfigAllowed st3 st3.mCurrentRefreshRate.configId = true ∧
      getCurrentRefreshRateByPolicy st3 = some st3.mCurrentRefreshRate :=
  ⟨rfl, (getCurrentRefreshRateByPolicy_spec st3).1 rfl⟩

/-- Unfolding of the scoring call when some layer votes a scoring type and
the touch flag is down. -/
theorem contentV2_scoring (c : RefreshRateConfigs) (layers : List LayerRequirement)
    (h1 : layers.isEmpty = false)
    (h2 : layers.all (fun l => voteIsNoVoteOrMin l.vote) = false) :
    getRefreshRateForContentV2 c layers false =
      match getBestRefreshRate (scoredList layers (availableOrDefault c)) with
      | none => none
      | some chosen => some (chosen, false) := by
  unfold getRefreshRateForContentV2 contentChoice
  rw [h1, h2]

/-- Unfolding of the scoring call when every layer abstains or votes Min and
the touch flag is down. -/
theorem contentV2_minvote (c : RefreshRateConfigs) (layers : List LayerRequirement)
    (h1 : layers.isEmpty = false)
    (h2 : layers.all (fun l => voteIsNoVoteOrMin l.vote) = true) :
    getRefreshRateForContentV2 c layers false =
      match (availableOrDefault c).head? with
      | none => none
      | some chosen => some (chosen, false) := by
  unfold getRefreshRateForContentV2 contentChoice
  rw [h1, h2]

/-- The combined score of a single layer of weight 1 voting Max is the
candidate's fps divided by the maximal candidate fps. -/
theorem totalScore_single_max (nm : String) (d : ℚ) (m : ℚ) (r : RefreshRate) :
    totalScore [⟨nm, LayerVoteType.Max, d, 1⟩] m r = r.fps / m := by
  simp [totalScore, layerScore]

/-- C5.  Against any state whose available timings are nonempty (for example a
catalog fully allowed by the effective policy), a single layer voting Max with
weight 1 selects an available timing whose fps bounds the fps of every
available timing from above, and a single layer voting Min with weight 1
selects one bounding from below.  The hypotheses record the availability
invariants: positive fps values, listed lowest refresh rate first. -/
theorem minMax_vote_dominance (c : RefreshRateConfigs) (nm : String) (d : ℚ)
    (hne : c.mAvailableRefreshRates ≠ [])
    (hpos : ∀ r ∈ c.mAvailableRefreshRates, 0 < r.fps)
    (hsorted : List.Pairwise (fun a b => a.fps ≤ b.fps) c.mAvailableRefreshRates) :
    (∃ r, getRefreshRateForContentV2 c [⟨nm, LayerVoteType.Max, d, 1⟩] false =
        some (r, false) ∧
      r ∈ c.mAvailableRefreshRates ∧ ∀ s ∈ c.mAvailableRefreshRates, s.fps ≤ r.fps) ∧
    (∃ r, getRefreshRateForContentV2 c [⟨nm, LayerVoteType.Min, d, 1⟩] false =
        some (r, false) ∧
      r ∈ c.mAvailableRefreshRates ∧ ∀ s ∈ c.mAvailableRefreshRates, r.fps ≤ s.fps) := by
  have hAv : availableOrDefault c = c.mAvailableRefreshRates :=
    availableOrDefault_of_ne_nil c hne
  obtain ⟨x, xs, hx⟩ : ∃ x xs, c.mAvailableRefreshRates = x :: xs := by
    match c.mAvailableRefreshRates, hne with
    | y :: ys, _ => exact ⟨y, ys, rfl⟩
  constructor
  · -- Max: the scoring path applies, and the score is fps / maxAvailableFps.
    have hxmem : x ∈ c.mAvailableRefreshRates := by
      rw [hx]; exact List.Mem.head _
    have hM : 0 < maxAvailableFps c.mAvailableRefreshRates :=
      lt_of_lt_of_le (hpos x hxmem) (fps_le_maxAvailableFps _ x hxmem)
    have hres := contentV2_scoring c [⟨nm, LayerVoteType.Max, d, 1⟩] rfl rfl
    rw [hAv] at hres
    have hLne : scoredList [⟨nm, LayerVoteType.Max, d, 1⟩] c.mAvailableRefreshRates ≠ [] := by
      rw [hx]
      simp [scoredList]
    obtain ⟨i, hi, heq, hall, -⟩ :=
      getBestRefreshRate_spec (scoredList [⟨nm, LayerVoteType.Max, d, 1⟩]
        c.mAvailableRefreshRates) hLne
    have hi2 : i < c.mAvailableRefreshRates.length := by
      simpa [scoredList] using hi
    have hget : ∀ j, ∀ hj : j <
        (scoredList [⟨nm, LayerVoteType.Max, d, 1⟩] c.mAvailableRefreshRates).length,
        (scoredList [⟨nm, LayerVoteType.Max, d, 1⟩] c.mAvailableRefreshRates).get ⟨j, hj⟩ =
          (c.mAvailableRefreshRates.get ⟨j, by simpa [scoredList] using hj⟩,
            (c.mAvailableRefreshRates.get ⟨j, by simpa [scoredList] using hj⟩).fps /
              maxAvailableFps c.mAvailableRefreshRates) := by
      intro j hj
      simp [scoredList, List.get_eq_getElem, List.getElem_map, totalScore_single_max]
    refine ⟨c.mAvailableRefreshRates.get ⟨i, hi2⟩, ?_, List.get_mem _ _ _, ?_⟩
    · rw [hget i hi] at heq
      rw [hres, heq]
    · intro s hs
      obtain ⟨⟨j, hj⟩, hsj⟩ := List.mem_iff_get.mp hs
      have hjL : j < (scoredList [⟨nm, LayerVoteType.Max, d, 1⟩]
          c.mAvailableRefreshRates).length := by
        simpa [scoredList] using hj
      have hcmp := hall j hjL
      rw [hget j hjL, hget i hi] at hcmp
      have hfps : (c.mAvailableRefreshRates.get ⟨j, hj⟩).fps ≤
          (c.mAvailableRefreshRates.get ⟨i, hi2⟩).fps :=
        (div_le_div_iff_of_pos_right hM).mp hcmp
      rw [hsj] at hfps
      exact hfps
  · -- Min: every layer votes Min, so the head (lowest refresh rate) is taken.
    refine ⟨x, ?_, by rw [hx]; exact List.Mem.head _, ?_⟩
    · rw [contentV2_minvote c [⟨nm, LayerVoteType.Min, d, 1⟩] rfl rfl, hAv, hx]
      rfl
    · intro s hs
      exact head_le_of_pairwise x xs (hx ▸ hsorted) s (hx ▸ hs)

/-- Witness for C5: on st3 the single Max layer takes 120 fps and the single
Min layer takes 60 fps; stated through the bounds of the theorem. -/
theorem minMax_vote_dominance_witness :
    (∃ r, getRefreshRateForContentV2 st3 [⟨"w", LayerVoteType.Max, 0, 1⟩] false =
        some (r, false) ∧
      r ∈ st3.mAvailableRefreshRates ∧ ∀ s ∈ st3.mAvailableRefreshRates, s.fps ≤ r.fps) ∧
    (∃ r, getRefreshRateForContentV2 st3 [⟨"w", LayerVoteType.Min, 0, 1⟩] false =
        some (r, false) ∧
      r ∈ st3.mAvailableRefreshRates ∧ ∀ s ∈ st3.mAvailableRefreshRates, r.fps ≤ s.fps) :=
  minMax_vote_dominance st3 "w" 0 (by simp [st3])
    (by intro r hr; fin_cases hr <;> norm_num [rr60, rr90, rr120])
    (by simp [st3, catalog3]; norm_num [rr60, rr90, rr120])

/-- Counterexample to C3 as stated.  On st3 with the 30 fps
ExplicitExactOrMultiple layer all three candidates tie at the highest
combined score, and the call returns the 60 fps timing, whose vsyncPeriod is
the largest; the tied candidate encountered first in ascending-period order
would be the 120 fps timing, a different timing.  So the iteration order of
the available list is not ascending-period. -/
theorem tie_ascending_period_counterexample :
    getRefreshRateForContentV2 st3 [l30] false = some (rr60, false) ∧
      totalScore [l30] (maxAvailableFps st3.mAvailableRefreshRates) rr60 =
        totalScore [l30] (maxAvailableFps st3.mAvailableRefreshRates) rr90 ∧
      totalScore [l30] (maxAvailableFps st3.mAvailableRefreshRates) rr60 =
        totalScore [l30] (maxAvailableFps st3.mAvailableRefreshRates) rr120 ∧
      rr120.vsyncPeriod < rr90.vsyncPeriod ∧
      rr90.vsyncPeriod < rr60.vsyncPeriod ∧
      rr60.configId ≠ rr120.configId :=
  ⟨by with_unfolding_all rfl, by with_unfolding_all rfl, by with_unfolding_all rfl,
    by norm_num [rr90, rr120], by norm_num [rr60, rr90],
    by norm_num [rr60, rr120]⟩

/-- C3 amended.  On exact score ties getBestRefreshRate returns the tied
candidate encountered first in the iteration order of the available list, and
that order is descending-vsyncPeriod (the first element is the lowest refresh
rate), so the tied candidate with the lower refresh rate wins: the chosen
index attains the maximal score and every earlier index scores strictly
less. -/
theorem tie_first_in_iteration_order :
    (∀ catalog policy,
      PeriodDescending (constructAvailableRefreshRates catalog policy)) ∧
    (∀ scored : List (RefreshRate × ℚ), scored ≠ [] →
      ∃ i, ∃ hi : i < scored.length,
        getBestRefreshRate scored = some (scored.get ⟨i, hi⟩).1 ∧
        (∀ j, ∀ hj : j < scored.length,
          (scored.get ⟨j, hj⟩).2 ≤ (scored.get ⟨i, hi⟩).2) ∧
        (∀ j, ∀ hj : j < scored.length, j < i →
          (scored.get ⟨j, hj⟩).2 < (scored.get ⟨i, hi⟩).2)) :=
  ⟨fun catalog policy => periodDescending_constructAvailableRefreshRates catalog policy,
    fun scored h => getBestRefreshRate_spec scored h⟩

/-- Witness for the amended C3, instantiated at a concrete two-way tie. -/
theorem tie_first_in_iteration_order_witness :
    ∃ i, ∃ hi : i < ([(rr60, (1 : ℚ)), (rr90, 1)]).length,
      getBestRefreshRate [(rr60, (1 : ℚ)), (rr90, 1)] =
        some (([(rr60, (1 : ℚ)), (rr90, 1)]).get ⟨i, hi⟩).1 ∧
      (∀ j, ∀ hj : j < ([(rr60, (1 : ℚ)), (rr90, 1)]).length,
        (([(rr60, (1 : ℚ)), (rr90, 1)]).get ⟨j, hj⟩).2 ≤
          (([(rr60, (1 : ℚ)), (rr90, 1)]).get ⟨i, hi⟩).2) ∧
      (∀ j, ∀ hj : j < ([(rr60, (1 : ℚ)), (rr90, 1)]).length, j < i →
        (([(rr60, (1 : ℚ)), (rr90, 1)]).get ⟨j, hj⟩).2 <
          (([(rr60, (1 : ℚ)), (rr90, 1)]).get ⟨i, hi⟩).2) :=
  tie_first_in_iteration_order.2 [(rr60, 1), (rr90, 1)] (by simp)

/-- Counterexample to C4 as stated.  With the {60, 90, 120} fps catalog and a
30 fps ExplicitExactOrMultiple layer, the 90 fps timing is also eligible: its
period divides the desired period exactly (remainder 0, within the margin),
because 90 is an exact multiple of 30.  The call still returns 60 fps. -/
theorem exactOrMultiple_ninety_counterexample :
    (getDisplayFrames (layerPeriodOf l30) rr90.vsyncPeriod).2 = 0 ∧
      layerScore (maxAvailableFps st3.mAvailableRefreshRates) l30 rr90 ≠ 0 ∧
      getRefreshRateForContentV2 st3 [l30] false = some (rr60, false) :=
  ⟨by with_unfolding_all rfl, of_decide_eq_true (by with_unfolding_all rfl),
    by with_unfolding_all rfl⟩

/-- C4 amended.  An ExplicitExactOrMultiple layer gives a candidate a nonzero
score exactly when the remainder of dividing the desired period by the
candidate period is zero within MARGIN_FOR_PERIOD_CALCULATION; with the
{60, 90, 120} fps catalog and desiredFps = 30 all three timings are eligible
(each is an exact multiple of 30) and, absent other votes, the 60 fps timing
is selected. -/
theorem exactOrMultiple_eligibility (m : ℚ) (l : LayerRequirement) (r : RefreshRate)
    (hv : l.vote = LayerVoteType.ExplicitExactOrMultiple) :
    (layerScore m l r ≠ 0 ↔
      ((getDisplayFrames (layerPeriodOf l) r.vsyncPeriod).2.natAbs : Int) ≤
        MARGIN_FOR_PERIOD_CALCULATION) ∧
    (layerScore (maxAvailableFps st3.mAvailableRefreshRates) l30 rr60 = 1 ∧
      layerScore (maxAvailableFps st3.mAvailableRefreshRates) l30 rr90 = 1 ∧
      layerScore (maxAvailableFps st3.mAvailableRefreshRates) l30 rr120 = 1 ∧
      getRefreshRateForContentV2 st3 [l30] false = some (rr60, false)) := by
  constructor
  · simp only [layerScore, hv]
    split_ifs with h
    · simpa using h
    · simpa using h
  · exact ⟨by with_unfolding_all rfl, by with_unfolding_all rfl,
      by with_unfolding_all rfl, by with_unfolding_all rfl⟩

/-- Witness for the amended C4, instantiated at the 90 fps timing. -/
theorem exactOrMultiple_eligibility_witness :
    l30.vote = LayerVoteType.ExplicitExactOrMultiple ∧
      (layerScore (maxAvailableFps st3.mAvailableRefreshRates) l30 rr90 ≠ 0 ↔
        ((getDisplayFrames (layerPeriodOf l30) rr90.vsyncPeriod).2.natAbs : Int) ≤
          MARGIN_FOR_PERIOD_CALCULATION) :=
  ⟨rfl,
    (exactOrMultiple_eligibility (maxAvailableFps st3.mAvailableRefreshRates) l30 rr90 rfl).1⟩

/-- C9.  The scoring call is deterministic and mutation-free: the state it
hands back is the state it was called on, and a second call on that state
with the same layers and touch flag returns the identical timing and
considered-touch flag. -/
theorem contentV2_deterministic_pure (c : RefreshRateConfigs)
    (layers : List LayerRequirement) (touchActive : Bool) :
    (getRefreshRateForContentV2Run c layers touchActive).2 = c ∧
      (getRefreshRateForContentV2Run
          (getRefreshRateForContentV2Run c layers touchActive).2 layers touchActive).1 =
        (getRefreshRateForContentV2Run c layers touchActive).1 :=
  ⟨rfl, rfl⟩

/-- Witness for C10: concrete instances of all three status signs. -/
theorem policy_status_codes_witness :
    (setDisplayManagerPolicy st3 ⟨0, 90, 60, false⟩).1 < 0 ∧
      (setDisplayManagerPolicy st3 ⟨0, 0, 90, false⟩).1 = 0 ∧
      (setDisplayManagerPolicy st3 pol3).1 = CURRENT_POLICY_UNCHANGED :=
  ⟨((policy_status_codes st3 ⟨0, 90, 60, false⟩).1 (by with_unfolding_all rfl)).1,
    (policy_status_codes st3 ⟨0, 0, 90, false⟩).2.1 (by with_unfolding_all rfl)
      (by with_unfolding_all exact fun h => Policy.noConfusion h (fun _ _ h2 _ => by
        exact absurd (congrArg Rat.num h2) (by decide))),
    (policy_status_codes st3 pol3).2.2.1 (by with_unfolding_all rfl) rfl⟩

end RefreshRateConfigsProof
